import Mathlib

set_option maxHeartbeats 1000000

/-!
Shallow embedding of the Observer-pattern notification core of the
repository (`ObserverPattern.ts`): the `EventEmitter` pub/sub class, the
`ObservableStore` subject, and the `NewsPublisher` filtered publisher.

Callbacks are modelled by identity tokens (`Nat`), with an environment
(`beh`) assigning each token the effect its invocation performs; an
invocation log records which callbacks were invoked and in what order.
A JavaScript exception thrown by a callback is modelled by an `aborted`
flag on the result: when it is `true` the iteration stopped at the
throwing callback and the exception propagated to the caller, with all
state mutations made so far kept (JS objects are not rolled back).

`Map` and `Set` are modelled as insertion-ordered duplicate-free lists,
matching the ECMAScript iteration-order guarantees.  `Set.forEach` over
a set that callbacks may mutate by deletion visits the original entries
in insertion order and skips an entry deleted before its visit; since
the modelled effects never add entries, iterating the initial entry
list with a liveness check (`runCBs`) is exactly that semantics.
-/

/-- Effect a registered `EventEmitter` callback performs when invoked:
nothing, `off` of a callback token on the same topic, or throwing an
exception. -/
inductive CbAct where
  | nop : CbAct
  | unsub : Nat → CbAct
  | throwErr : CbAct
deriving DecidableEq

/-- Whether an effect is an unsubscribe action (used to state
throw-abort lemmas for passes in which no callback mutates the set). -/
def CbAct.isUnsub : CbAct → Bool
  | CbAct.unsub _ => true
  | _ => false

/-- The live-`Set.forEach` loop body of `EventEmitter.emit`
(`callbacks.forEach((callback) => callback(data))`): `pending` is the
insertion-ordered list of entries present when iteration began, `cur`
is the current (mutable) content of the set, `log` accumulates invoked
tokens.  Returns (final set content, invocation log, whether a callback
threw). -/
def runCBs (beh : Nat → CbAct) : List Nat → List Nat → List Nat → List Nat × List Nat × Bool
  | [], cur, log => (cur, log, false)
  | p :: rest, cur, log =>
    if p ∈ cur then
      match beh p with
      | CbAct.nop => runCBs beh rest cur (log ++ [p])
      | CbAct.unsub t => runCBs beh rest (cur.erase t) (log ++ [p])
      | CbAct.throwErr => (cur, log ++ [p], true)
    else runCBs beh rest cur log

/-- `EventEmitter`: `private events: Map<string, Set<EventCallback>>`,
as an insertion-ordered association list of topics to callback-token
sets. -/
structure EventEmitter where
  events : List (String × List Nat)
deriving DecidableEq

/-- `Map.get`: first entry with the given key, if any. -/
def lookupTopic : List (String × List Nat) → String → Option (List Nat)
  | [], _ => none
  | (k, v) :: rest, e => if k = e then some v else lookupTopic rest e

/-- In-place update of the set stored under an existing key (JS mutates
the `Set` object held in the `Map`, keeping its position). -/
def setTopic : List (String × List Nat) → String → List Nat → List (String × List Nat)
  | [], _, _ => []
  | (k, v) :: rest, e, l => if k = e then (k, l) :: rest else (k, v) :: setTopic rest e l

/-- `EventEmitter.on`: create the topic's set on first use, then
`Set.add` the callback (a no-op when the identical callback is already
present). -/
def EventEmitter.on (em : EventEmitter) (e : String) (cb : Nat) : EventEmitter :=
  match lookupTopic em.events e with
  | none => ⟨em.events ++ [(e, [cb])]⟩
  | some cbs => if cb ∈ cbs then em else ⟨setTopic em.events e (cbs ++ [cb])⟩

/-- `EventEmitter.off`: `Set.delete` of the callback from the topic's
set, a no-op when the topic or the callback is absent. -/
def EventEmitter.off (em : EventEmitter) (e : String) (cb : Nat) : EventEmitter :=
  match lookupTopic em.events e with
  | none => em
  | some cbs => ⟨setTopic em.events e (cbs.erase cb)⟩

/-- Result of one `emit` call: the emitter afterwards, the ordered list
of invoked callback tokens, and whether a callback threw (the exception
then propagated out of `emit`). -/
structure EmitResult where
  emitter : EventEmitter
  log : List Nat
  aborted : Bool
deriving DecidableEq

/-- `EventEmitter.emit`: look the topic up and `forEach` its live set;
absent topic is a silent no-op.  The payload is delivered unchanged to
every invoked callback and is elided from the model. -/
def EventEmitter.emit (em : EventEmitter) (e : String) (beh : Nat → CbAct) : EmitResult :=
  match lookupTopic em.events e with
  | none => ⟨em, [], false⟩
  | some cbs =>
    let r := runCBs beh cbs cbs []
    ⟨⟨setTopic em.events e r.1⟩, r.2.1, r.2.2⟩

/-- `EventEmitter.listenerCount`: `this.events.get(event)?.size || 0`. -/
def EventEmitter.listenerCount (em : EventEmitter) (e : String) : Nat :=
  match lookupTopic em.events e with
  | none => 0
  | some cbs => cbs.length

/-- Well-formedness: every stored callback set is duplicate-free, which
is what a JS `Set` guarantees by construction. -/
def EmWF (em : EventEmitter) : Prop :=
  ∀ pr ∈ em.events, pr.2.Nodup

instance (em : EventEmitter) : Decidable (EmWF em) :=
  List.decidableBAll _ em.events

theorem lookupTopic_mem {evs : List (String × List Nat)} {e : String} {l : List Nat}
    (h : lookupTopic evs e = some l) : (e, l) ∈ evs := by
  induction evs with
  | nil => simp [lookupTopic] at h
  | cons pr rest ih =>
    obtain ⟨k, v⟩ := pr
    by_cases hk : k = e
    · subst hk
      simp [lookupTopic] at h
      subst h
      exact List.mem_cons_self _ _
    · simp [lookupTopic, hk] at h
      exact List.mem_cons_of_mem _ (ih h)

theorem runCBs_no_throw (beh : Nat → CbAct) :
    ∀ (pending cur log : List Nat), (∀ p ∈ pending, beh p ≠ CbAct.throwErr) →
      (runCBs beh pending cur log).2.2 = false := by
  intro pending
  induction pending with
  | nil => intro cur log _; simp [runCBs]
  | cons p rest ih =>
    intro cur log h
    by_cases hp : p ∈ cur
    · cases hb : beh p with
      | nop =>
        simp only [runCBs, if_pos hp, hb]
        exact ih cur (log ++ [p]) fun q hq => h q (List.mem_cons_of_mem _ hq)
      | unsub t =>
        simp only [runCBs, if_pos hp, hb]
        exact ih (cur.erase t) (log ++ [p]) fun q hq => h q (List.mem_cons_of_mem _ hq)
      | throwErr => exact absurd hb (h p (List.mem_cons_self _ _))
    · simp only [runCBs, if_neg hp]
      exact ih cur log fun q hq => h q (List.mem_cons_of_mem _ hq)

theorem count_snoc_ne {x p : Nat} (log : List Nat) (h : p ≠ x) :
    (log ++ [p]).count x = log.count x := by
  have h0 : ([p] : List Nat).count x = 0 :=
    List.count_eq_zero.mpr (by simp [Ne.symm h])
  simp [List.count_append, h0]

theorem count_snoc_self (x : Nat) (log : List Nat) :
    (log ++ [x]).count x = log.count x + 1 := by
  have h1 : ([x] : List Nat).count x = 1 := by simp
  simp [List.count_append, h1]

theorem runCBs_count_notin (beh : Nat → CbAct) (x : Nat) :
    ∀ (pending cur log : List Nat), x ∉ pending →
      ((runCBs beh pending cur log).2.1).count x = log.count x := by
  intro pending
  induction pending with
  | nil => intro cur log _; simp [runCBs]
  | cons p rest ih =>
    intro cur log hx
    have hpx : p ≠ x := fun h => hx (h ▸ List.mem_cons_self _ _)
    have hxr : x ∉ rest := fun h => hx (List.mem_cons_of_mem _ h)
    have hcount : (log ++ [p]).count x = log.count x := count_snoc_ne log hpx
    by_cases hp : p ∈ cur
    · cases hb : beh p with
      | nop =>
        simp only [runCBs, if_pos hp, hb]
        rw [ih cur (log ++ [p]) hxr, hcount]
      | unsub t =>
        simp only [runCBs, if_pos hp, hb]
        rw [ih (cur.erase t) (log ++ [p]) hxr, hcount]
      | throwErr =>
        simp only [runCBs, if_pos hp, hb]
        exact hcount
    · simp only [runCBs, if_neg hp]
      exact ih cur log hxr

theorem runCBs_count_invoked (beh : Nat → CbAct) (x : Nat) :
    ∀ (pending cur log : List Nat), pending.Nodup → x ∈ pending → x ∈ cur →
      (∀ p ∈ pending, beh p ≠ CbAct.throwErr) →
      (∀ p ∈ pending, beh p ≠ CbAct.unsub x) →
      ((runCBs beh pending cur log).2.1).count x = log.count x + 1 := by
  intro pending
  induction pending with
  | nil => intro cur log _ hx; simp at hx
  | cons p rest ih =>
    intro cur log hnd hx hcur hth hun
    have hndr : rest.Nodup := hnd.of_cons
    have hthr : ∀ q ∈ rest, beh q ≠ CbAct.throwErr :=
      fun q hq => hth q (List.mem_cons_of_mem _ hq)
    have hunr : ∀ q ∈ rest, beh q ≠ CbAct.unsub x :=
      fun q hq => hun q (List.mem_cons_of_mem _ hq)
    by_cases hp : p ∈ cur
    · cases hb : beh p with
      | nop =>
        simp only [runCBs, if_pos hp, hb]
        by_cases hpx : p = x
        · have hxr : x ∉ rest := hpx ▸ (List.nodup_cons.mp hnd).1
          rw [runCBs_count_notin beh x rest cur (log ++ [p]) hxr, hpx,
            count_snoc_self]
        · have hxr : x ∈ rest :=
            (List.mem_cons.mp hx).resolve_left fun h => hpx h.symm
          rw [ih cur (log ++ [p]) hndr hxr hcur hthr hunr, count_snoc_ne log hpx]
      | unsub t =>
        have htx : t ≠ x := by
          intro h
          exact hun p (List.mem_cons_self _ _) (by rw [hb, h])
        have hcur' : x ∈ cur.erase t := (List.mem_erase_of_ne (fun h => htx h.symm)).mpr hcur
        simp only [runCBs, if_pos hp, hb]
        by_cases hpx : p = x
        · have hxr : x ∉ rest := hpx ▸ (List.nodup_cons.mp hnd).1
          rw [runCBs_count_notin beh x rest _ (log ++ [p]) hxr, hpx,
            count_snoc_self]
        · have hxr : x ∈ rest :=
            (List.mem_cons.mp hx).resolve_left fun h => hpx h.symm
          rw [ih (cur.erase t) (log ++ [p]) hndr hxr hcur' hthr hunr,
            count_snoc_ne log hpx]
      | throwErr => exact absurd hb (hth p (List.mem_cons_self _ _))
    · have hpx : p ≠ x := fun h => hp (h ▸ hcur)
      have hxr : x ∈ rest :=
        (List.mem_cons.mp hx).resolve_left fun h => hpx h.symm
      simp only [runCBs, if_neg hp]
      exact ih cur log hndr hxr hcur hthr hunr

theorem runCBs_throw_aborts (beh : Nat → CbAct) :
    ∀ (pending cur log : List Nat),
      (∀ r ∈ pending, (beh r).isUnsub = false) →
      (∃ q ∈ pending, q ∈ cur ∧ beh q = CbAct.throwErr) →
      (runCBs beh pending cur log).2.2 = true := by
  intro pending
  induction pending with
  | nil =>
    intro cur log _ hex
    simp at hex
  | cons q rest ih =>
    intro cur log hu hex
    obtain ⟨w, hw, hwc, hwt⟩ := hex
    have hur : ∀ r ∈ rest, (beh r).isUnsub = false :=
      fun r hr => hu r (List.mem_cons_of_mem _ hr)
    by_cases hq : q ∈ cur
    · cases hb : beh q with
      | nop =>
        simp only [runCBs, if_pos hq, hb]
        apply ih cur (log ++ [q]) hur
        rcases List.mem_cons.mp hw with h1 | h2
        · exact absurd (h1 ▸ hwt) (by simp [hb])
        · exact ⟨w, h2, hwc, hwt⟩
      | unsub t =>
        have := hu q (List.mem_cons_self _ _)
        rw [hb] at this
        simp [CbAct.isUnsub] at this
      | throwErr => simp [runCBs, if_pos hq, hb]
    · simp only [runCBs, if_neg hq]
      apply ih cur log hur
      rcases List.mem_cons.mp hw with h1 | h2
      · exact absurd (h1 ▸ hwc) hq
      · exact ⟨w, h2, hwc, hwt⟩

theorem emit_eq_runCBs {em : EventEmitter} {e : String} {cbs : List Nat}
    (beh : Nat → CbAct) (hl : lookupTopic em.events e = some cbs) :
    em.emit e beh =
      ⟨⟨setTopic em.events e (runCBs beh cbs cbs []).1⟩,
        (runCBs beh cbs cbs []).2.1, (runCBs beh cbs cbs []).2.2⟩ := by
  unfold EventEmitter.emit
  rw [hl]

/-- Behaviour environment used by the C2 witness on the emitter side:
callback 1 unsubscribes callback 2, all others do nothing. -/
def behW2 : Nat → CbAct :=
  fun p => if p = 1 then CbAct.unsub 2 else CbAct.nop

/-- Behaviour environment used by the C2 witness on the store side:
observer 5 unsubscribes observer 6, all others do nothing. -/
def behW2s : Nat → CbAct :=
  fun o => if o = 5 then CbAct.unsub 6 else CbAct.nop

/-- Behaviour environment used by the C1 witness on the emitter side:
callback 1 throws, all others do nothing. -/
def behEmThrow : Nat → CbAct :=
  fun n => if n = 1 then CbAct.throwErr else CbAct.nop

theorem lookupTopic_setTopic_self {evs : List (String × List Nat)} {e : String}
    {cbs : List Nat} (l : List Nat) (h : lookupTopic evs e = some cbs) :
    lookupTopic (setTopic evs e l) e = some l := by
  induction evs with
  | nil => simp [lookupTopic] at h
  | cons pr rest ih =>
    obtain ⟨k, v⟩ := pr
    by_cases hk : k = e
    · simp [setTopic, lookupTopic, hk]
    · simp only [lookupTopic, if_neg hk] at h
      simp [setTopic, lookupTopic, hk, ih h]

theorem lookupTopic_append_absent {evs : List (String × List Nat)} {e : String}
    (l : List Nat) (h : lookupTopic evs e = none) :
    lookupTopic (evs ++ [(e, l)]) e = some l := by
  induction evs with
  | nil => simp [lookupTopic]
  | cons pr rest ih =>
    obtain ⟨k, v⟩ := pr
    by_cases hk : k = e
    · simp [lookupTopic, hk] at h
    · simp only [lookupTopic, if_neg hk] at h
      simp [lookupTopic, hk, ih h]

theorem on_idem (em : EventEmitter) (e : String) (cb : Nat) :
    (em.on e cb).on e cb = em.on e cb := by
  cases hl : lookupTopic em.events e with
  | none =>
    have h1 : em.on e cb = ⟨em.events ++ [(e, [cb])]⟩ := by
      unfold EventEmitter.on
      rw [hl]
    have h2 : lookupTopic (em.events ++ [(e, [cb])]) e = some [cb] :=
      lookupTopic_append_absent [cb] hl
    rw [h1]
    unfold EventEmitter.on
    simp [h2]
  | some cbs =>
    by_cases hc : cb ∈ cbs
    · have h1 : em.on e cb = em := by
        unfold EventEmitter.on
        rw [hl]
        simp [hc]
      rw [h1]
      exact h1
    · have h1 : em.on e cb = ⟨setTopic em.events e (cbs ++ [cb])⟩ := by
        unfold EventEmitter.on
        rw [hl]
        simp [hc]
      have h2 : lookupTopic (setTopic em.events e (cbs ++ [cb])) e = some (cbs ++ [cb]) :=
        lookupTopic_setTopic_self (cbs ++ [cb]) hl
      rw [h1]
      unfold EventEmitter.on
      simp [h2]

theorem on_lookup_mem_nodup {em : EventEmitter} {e : String} {cb : Nat} {l : List Nat}
    (hwf : EmWF em) (hl : lookupTopic (em.on e cb).events e = some l) :
    cb ∈ l ∧ l.Nodup := by
  cases h0 : lookupTopic em.events e with
  | none =>
    have h1 : (em.on e cb).events = em.events ++ [(e, [cb])] := by
      unfold EventEmitter.on
      rw [h0]
    rw [h1, lookupTopic_append_absent [cb] h0] at hl
    cases hl
    exact ⟨List.mem_singleton_self cb, List.nodup_singleton cb⟩
  | some cbs =>
    have hnd : cbs.Nodup := hwf (e, cbs) (lookupTopic_mem h0)
    by_cases hc : cb ∈ cbs
    · have h1 : em.on e cb = em := by
        unfold EventEmitter.on
        rw [h0]
        simp [hc]
      rw [h1, h0] at hl
      cases hl
      exact ⟨hc, hnd⟩
    · have h1 : (em.on e cb).events = setTopic em.events e (cbs ++ [cb]) := by
        unfold EventEmitter.on
        rw [h0]
        simp [hc]
      rw [h1, lookupTopic_setTopic_self (cbs ++ [cb]) h0] at hl
      cases hl
      constructor
      · exact List.mem_append_right _ (List.mem_singleton_self cb)
      · exact List.Nodup.append hnd (List.nodup_singleton cb)
          (List.disjoint_singleton.mpr hc)

/-- C7 (confirmed): registering the same callback identity twice under
the same topic is a no-op beyond the first registration: the emitter is
unchanged (`on` is idempotent), the topic's listener count does not
increase, and an emit after the duplicate registration invokes the
callback exactly once (given that no registered callback throws or
unsubscribes it during that pass). -/
theorem c7_on_duplicate_no_effect (em : EventEmitter) (e : String) (cb : Nat)
    (beh : Nat → CbAct) (l : List Nat)
    (hwf : EmWF em)
    (hl : lookupTopic ((em.on e cb).on e cb).events e = some l)
    (hth : ∀ p ∈ l, beh p ≠ CbAct.throwErr)
    (hun : ∀ p ∈ l, beh p ≠ CbAct.unsub cb) :
    (em.on e cb).on e cb = em.on e cb
    ∧ ((em.on e cb).on e cb).listenerCount e = (em.on e cb).listenerCount e
    ∧ (((em.on e cb).on e cb).emit e beh).log.count cb = 1 := by
  have hid := on_idem em e cb
  refine ⟨hid, by rw [hid], ?_⟩
  rw [hid] at hl ⊢
  obtain ⟨hmem, hnd⟩ := on_lookup_mem_nodup hwf hl
  have hemit : ((em.on e cb).emit e beh).log = (runCBs beh l l []).2.1 := by
    unfold EventEmitter.emit
    rw [hl]
  rw [hemit]
  have := runCBs_count_invoked beh cb l l [] hnd hmem hmem hth hun
  simpa using this

/-- Witness for C7 at a concrete emitter: double-register callback 7 on
the fresh topic `"t"` and emit with all callbacks benign. -/
theorem c7_witness :
    ((EventEmitter.mk []).on "t" 7).on "t" 7 = (EventEmitter.mk []).on "t" 7
    ∧ (((EventEmitter.mk []).on "t" 7).on "t" 7).listenerCount "t"
        = ((EventEmitter.mk []).on "t" 7).listenerCount "t"
    ∧ ((((EventEmitter.mk []).on "t" 7).on "t" 7).emit "t" (fun _ => CbAct.nop)).log.count 7 = 1 :=
  c7_on_duplicate_no_effect (EventEmitter.mk []) "t" 7 (fun _ => CbAct.nop) [7]
    (by decide) (by decide) (by decide) (by decide)

/-- Effect a store observer or news subscriber callback performs when
invoked: nothing, or throwing an exception. -/
inductive CbEffect where
  | nop : CbEffect
  | throwErr : CbEffect
deriving DecidableEq

/-- `ObservableStore<T>`: `private observers: Set<Observer<T>>` (an
insertion-ordered duplicate-free list of observer tokens) and
`private state: T`. -/
structure ObservableStore (T : Type) where
  observers : List Nat
  state : T
deriving DecidableEq

/-- The argument of `setState`: either a literal replacement value or a
producer function of the previous state (`typeof newState ===
"function"` discriminates); a JS producer may throw, hence `Except`. -/
inductive NextState (T : Type) where
  | value : T → NextState T
  | producer : (T → Except Unit T) → NextState T

/-- Evaluate the `setState` argument against the previous state. -/
def evalNext {T : Type} : NextState T → T → Except Unit T
  | NextState.value v, _ => Except.ok v
  | NextState.producer f, prev => f prev

/-- The `notify` loop (`this.observers.forEach((observer) =>
observer.update(data))`): the log records `(observer, payload)`
invocations in order; a throwing observer aborts the loop and the
exception propagates. -/
def notifyRun {T : Type} (beh : Nat → CbEffect) (v : T) :
    List Nat → List (Nat × T) → List (Nat × T) × Bool
  | [], log => (log, false)
  | o :: rest, log =>
    match beh o with
    | CbEffect.nop => notifyRun beh v rest (log ++ [(o, v)])
    | CbEffect.throwErr => (log ++ [(o, v)], true)

/-- Result of one `setState` call: the store afterwards, the ordered
`update` invocation log, and whether an exception propagated out of
`setState` (thrown either by the producer or by an observer). -/
structure SetStateResult (T : Type) where
  store : ObservableStore T
  log : List (Nat × T)
  threw : Bool

/-- `ObservableStore.setState`: evaluate the new state (a throwing
producer propagates before anything is assigned), store it, and notify
only if it is not identical to the previous state
(`this.state !== previousState`). -/
def ObservableStore.setState {T : Type} [DecidableEq T] (s : ObservableStore T)
    (beh : Nat → CbEffect) (next : NextState T) : SetStateResult T :=
  match evalNext next s.state with
  | Except.error _ => ⟨s, [], true⟩
  | Except.ok v =>
    if v = s.state then ⟨{ s with state := v }, [], false⟩
    else
      let r := notifyRun beh v s.observers []
      ⟨{ s with state := v }, r.1, r.2⟩

/-- `ObservableStore.getState`: `return this.state;` — the stored value
itself, with no copying. -/
def ObservableStore.getState {T : Type} (s : ObservableStore T) : T :=
  s.state

/-- `ObservableStore.subscribe`: `Set.add` the observer, then
immediately invoke `observer.update(this.state)`; the log is that one
immediate invocation. -/
def ObservableStore.subscribe {T : Type} (s : ObservableStore T) (o : Nat) :
    ObservableStore T × List (Nat × T) :=
  (⟨if o ∈ s.observers then s.observers else s.observers ++ [o], s.state⟩,
    [(o, s.state)])

/-- `ObservableStore.unsubscribe`: `Set.delete` the observer. -/
def ObservableStore.unsubscribe {T : Type} (s : ObservableStore T) (o : Nat) :
    ObservableStore T :=
  ⟨s.observers.erase o, s.state⟩

/-- Result of one `notify` call: the store afterwards (observers may
have unsubscribed during the pass; the state is untouched by `notify`),
the ordered `update` invocation log, and whether an observer threw (the
exception then propagated out of `notify`). -/
structure NotifyResult (T : Type) where
  store : ObservableStore T
  log : List Nat
  aborted : Bool

/-- `ObservableStore.notify`: `this.observers.forEach((observer) =>
observer.update(data))` over the live observer `Set`, so an observer's
`update` may call `unsubscribe` on another observer (a `Set.delete`
during iteration) or throw — the same `runCBs` live-`forEach` semantics
as `emit`.  The payload `data` is delivered unchanged to every invoked
observer and is elided from the model, as with `emit`. -/
def ObservableStore.notify {T : Type} (s : ObservableStore T) (beh : Nat → CbAct) :
    NotifyResult T :=
  let r := runCBs beh s.observers s.observers []
  ⟨⟨r.1, s.state⟩, r.2.1, r.2.2⟩

theorem notifyRun_nop {T : Type} (beh : Nat → CbEffect) (v : T) :
    ∀ (obs : List Nat) (log : List (Nat × T)), (∀ o ∈ obs, beh o = CbEffect.nop) →
      notifyRun beh v obs log = (log ++ obs.map (fun o => (o, v)), false) := by
  intro obs
  induction obs with
  | nil => intro log _; simp [notifyRun]
  | cons o rest ih =>
    intro log h
    have ho : beh o = CbEffect.nop := h o (List.mem_cons_self _ _)
    simp only [notifyRun, ho]
    rw [ih (log ++ [(o, v)]) fun q hq => h q (List.mem_cons_of_mem _ hq)]
    simp

theorem notifyRun_throw_aborts {T : Type} (beh : Nat → CbEffect) (v : T) :
    ∀ (obs : List Nat) (log : List (Nat × T)),
      (∃ o ∈ obs, beh o = CbEffect.throwErr) →
      (notifyRun beh v obs log).2 = true := by
  intro obs
  induction obs with
  | nil =>
    intro log hex
    simp at hex
  | cons o rest ih =>
    intro log hex
    obtain ⟨w, hw, hwt⟩ := hex
    cases hb : beh o with
    | nop =>
      simp only [notifyRun, hb]
      apply ih (log ++ [(o, v)])
      rcases List.mem_cons.mp hw with h1 | h2
      · exact absurd (h1 ▸ hwt) (by simp [hb])
      · exact ⟨w, h2, hwt⟩
    | throwErr => simp [notifyRun, hb]

/-- C2 (confirmed): reentrant unsubscription is safe in both cited
delivery loops.  For an `emit` on a topic whose registered subscribers
are `cbs`, and for a `notify` pass over a store's observers, callbacks
may `off`/`unsubscribe` other subscribers of the same topic or other
observers of the same store during the pass: the call does not raise
(`aborted = false`), and any subscriber/observer that nobody
unsubscribes and that does not throw is still invoked exactly once —
no such participant is skipped or double-invoked. -/
theorem c2_unsub_during_delivery_safe {T : Type} (em : EventEmitter) (e : String)
    (beh : Nat → CbAct) (x : Nat) (cbs : List Nat)
    (hl : lookupTopic em.events e = some cbs) (hnd : cbs.Nodup)
    (hx : x ∈ cbs)
    (hth : ∀ p ∈ cbs, beh p ≠ CbAct.throwErr)
    (hun : ∀ p ∈ cbs, beh p ≠ CbAct.unsub x)
    (s : ObservableStore T) (obeh : Nat → CbAct) (y : Nat)
    (hsnd : s.observers.Nodup) (hy : y ∈ s.observers)
    (hoth : ∀ o ∈ s.observers, obeh o ≠ CbAct.throwErr)
    (houn : ∀ o ∈ s.observers, obeh o ≠ CbAct.unsub y) :
    ((em.emit e beh).aborted = false ∧ (em.emit e beh).log.count x = 1)
    ∧ ((s.notify obeh).aborted = false ∧ (s.notify obeh).log.count y = 1) := by
  constructor
  · rw [emit_eq_runCBs beh hl]
    refine ⟨runCBs_no_throw beh cbs cbs [] hth, ?_⟩
    have := runCBs_count_invoked beh x cbs cbs [] hnd hx hx hth hun
    simpa using this
  · refine ⟨runCBs_no_throw obeh s.observers s.observers [] hoth, ?_⟩
    have := runCBs_count_invoked obeh y s.observers s.observers [] hsnd hy hy hoth houn
    simpa using this

/-- Witness for C2 at concrete instances: on the emitter, three
subscribers on topic `"t"` where the first unsubscribes the second
during delivery; on the store, three observers where the first
unsubscribes the second during a `notify` pass.  Neither call raises
and the untouched third participant is invoked exactly once. -/
theorem c2_witness :
    ((EventEmitter.mk [("t", [1, 2, 3])]).emit "t" behW2).aborted = false
    ∧ ((EventEmitter.mk [("t", [1, 2, 3])]).emit "t" behW2).log.count 3 = 1
    ∧ ((ObservableStore.mk [5, 6, 7] (0 : Nat)).notify behW2s).aborted = false
    ∧ ((ObservableStore.mk [5, 6, 7] (0 : Nat)).notify behW2s).log.count 7 = 1 := by
  have h := c2_unsub_during_delivery_safe (EventEmitter.mk [("t", [1, 2, 3])]) "t"
    behW2 3 [1, 2, 3] (by decide) (by decide) (by decide) (by decide) (by decide)
    (ObservableStore.mk [5, 6, 7] (0 : Nat)) behW2s 7
    (by decide) (by decide) (by decide) (by decide)
  exact ⟨h.1.1, h.1.2, h.2.1, h.2.2⟩

/-- C3 (confirmed): `setState` stores the computed value, and notifies
observers if and only if that value is not identical to the previous
one: when identical no `update` runs, and when different every
currently-registered observer's `update` runs exactly once with the new
value (observers assumed benign, i.e. none of them throws). -/
theorem c3_setState_notifies_iff_changed {T : Type} [DecidableEq T]
    (s : ObservableStore T) (beh : Nat → CbEffect) (next : NextState T) (v : T)
    (hv : evalNext next s.state = Except.ok v)
    (hnd : s.observers.Nodup)
    (hnop : ∀ o ∈ s.observers, beh o = CbEffect.nop) :
    (s.setState beh next).store.state = v
    ∧ (v = s.state → (s.setState beh next).log = [])
    ∧ (v ≠ s.state →
        (s.setState beh next).log = s.observers.map (fun o => (o, v))
        ∧ ∀ o ∈ s.observers, ((s.setState beh next).log.map Prod.fst).count o = 1) := by
  have hres : s.setState beh next =
      if v = s.state then ⟨{ s with state := v }, [], false⟩
      else ⟨{ s with state := v }, (notifyRun beh v s.observers []).1,
        (notifyRun beh v s.observers []).2⟩ := by
    unfold ObservableStore.setState
    rw [hv]
  by_cases hc : v = s.state
  · rw [hres, if_pos hc]
    exact ⟨rfl, fun _ => rfl, fun h => absurd hc h⟩
  · rw [hres, if_neg hc, notifyRun_nop beh v s.observers [] hnop]
    refine ⟨rfl, fun h => absurd h hc, fun _ => ⟨by simp, fun o ho => ?_⟩⟩
    simp only [List.nil_append, List.map_map]
    have hid : (Prod.fst ∘ fun o : Nat => (o, v)) = id := rfl
    rw [hid, List.map_id]
    exact List.count_eq_one_of_mem hnd ho

/-- Witness for C3 at a concrete store: observers 1 and 2, state 0;
`setState` with the literal value 5 notifies both exactly once with 5,
and `setState` with the identical value 0 notifies nobody. -/
theorem c3_witness :
    ((ObservableStore.mk [1, 2] (0 : Nat)).setState (fun _ => CbEffect.nop)
        (NextState.value 5)).log = [(1, 5), (2, 5)]
    ∧ ((ObservableStore.mk [1, 2] (0 : Nat)).setState (fun _ => CbEffect.nop)
        (NextState.value 0)).log = [] := by
  have h5 := c3_setState_notifies_iff_changed (ObservableStore.mk [1, 2] (0 : Nat))
    (fun _ => CbEffect.nop) (NextState.value 5) 5 rfl (by decide) (by decide)
  have h0 := c3_setState_notifies_iff_changed (ObservableStore.mk [1, 2] (0 : Nat))
    (fun _ => CbEffect.nop) (NextState.value 0) 0 rfl (by decide) (by decide)
  exact ⟨((h5.2.2 (by decide)).1).trans (by decide), h0.2.1 rfl⟩

/-- C4 (confirmed): when the producer function passed to `setState`
throws, the exception propagates synchronously to the `setState` caller
(`threw = true`), the store — state and observer set — is unchanged,
and no observer is notified. -/
theorem c4_setState_producer_throw {T : Type} [DecidableEq T]
    (s : ObservableStore T) (beh : Nat → CbEffect) (f : T → Except Unit T)
    (hf : f s.state = Except.error ()) :
    s.setState beh (NextState.producer f) = ⟨s, [], true⟩ := by
  unfold ObservableStore.setState
  simp [evalNext, hf]

/-- Witness for C4 at a concrete store: a producer that always throws
leaves the store at state 3 with observer 4 registered, logs nothing
and reports the exception. -/
theorem c4_witness :
    (ObservableStore.mk [4] (3 : Nat)).setState (fun _ => CbEffect.nop)
        (NextState.producer (fun _ => Except.error ()))
      = ⟨ObservableStore.mk [4] (3 : Nat), [], true⟩ :=
  c4_setState_producer_throw (ObservableStore.mk [4] (3 : Nat))
    (fun _ => CbEffect.nop) (fun _ => Except.error ()) rfl

/-- C8 (confirmed): subscribing an observer immediately invokes its
`update` exactly once with the current state, as part of the
`subscribe` call itself and before any `setState`; the stored state is
unchanged and the observer is registered afterwards. -/
theorem c8_subscribe_immediate_update {T : Type} (s : ObservableStore T) (o : Nat) :
    (s.subscribe o).2 = [(o, s.state)]
    ∧ (s.subscribe o).1.state = s.state
    ∧ o ∈ (s.subscribe o).1.observers := by
  refine ⟨rfl, rfl, ?_⟩
  unfold ObservableStore.subscribe
  by_cases h : o ∈ s.observers
  · simp [h]
  · simp [h]

/-- State values carrying an explicit reference identity: two `RefObj`
values are the same JavaScript object reference exactly when their
`ref` components agree; `val` is the observable content. -/
structure RefObj where
  ref : Nat
  val : Nat
deriving DecidableEq

/-- Concrete store with a mutable-composite state used to test
`getState`'s copying behaviour. -/
def storeRef : ObservableStore RefObj :=
  ⟨[], ⟨7, 42⟩⟩

/-- C9 counterexample: at a concrete store, `getState` does NOT return
a value that is equal in content but distinct in reference from the
stored state — it returns the stored reference itself, so the claim
fails at this input. -/
theorem c9_counterexample :
    ¬ ((storeRef.getState).val = storeRef.state.val
        ∧ (storeRef.getState).ref ≠ storeRef.state.ref) := by
  decide

/-- C9 amended (corrected claim): `getState` returns the current state
value directly, with no defensive copy: the returned value is
reference-identical (same `ref`) as well as content-equal (same `val`)
to the internally stored state, so a caller mutating the returned
composite would be mutating the store's internal state. -/
theorem c9_getState_returns_stored_reference (s : ObservableStore RefObj) :
    (s.getState).ref = s.state.ref ∧ (s.getState).val = s.state.val :=
  ⟨rfl, rfl⟩

/-- `NewsArticle`: `publishedAt` (a `Date`) is modelled as the clock
value passed to `publish`. -/
structure NewsArticle where
  id : Nat
  title : String
  category : String
  content : String
  publishedAt : Nat
deriving DecidableEq

/-- `NewsSubscriber`: the `onNews` callback function is modelled by its
identity token, with the invocation effect supplied by the behaviour
environment of each `publish` call. -/
structure NewsSubscriber where
  id : String
  name : String
  categories : List String
  onNews : Nat
deriving DecidableEq

/-- `NewsPublisher`: `subscribers` is a `Map<string, NewsSubscriber>`
keyed by subscriber id (insertion-ordered, keys unique), `articles` the
append-only log, `articleIdCounter` starts at 0. -/
structure NewsPublisher where
  subscribers : List NewsSubscriber
  articles : List NewsArticle
  articleIdCounter : Nat
deriving DecidableEq

/-- The delivery filter of `publish`:
`subscriber.categories.includes("all") ||
subscriber.categories.includes(article.category)`. -/
def matchesInterest (sub : NewsSubscriber) (cat : String) : Bool :=
  sub.categories.contains "all" || sub.categories.contains cat

/-- `Map.set`: replace the value stored under an existing key in place,
else append a new entry. -/
def mapSet : List NewsSubscriber → NewsSubscriber → List NewsSubscriber
  | [], s => [s]
  | x :: rest, s => if x.id = s.id then s :: rest else x :: mapSet rest s

/-- `NewsPublisher.subscribe`:
`this.subscribers.set(subscriber.id, subscriber)`. -/
def NewsPublisher.subscribe (p : NewsPublisher) (s : NewsSubscriber) : NewsPublisher :=
  { p with subscribers := mapSet p.subscribers s }

/-- `Map.delete` by key (keys are unique, so deleting the first match
deletes the entry). -/
def mapDelete : List NewsSubscriber → String → List NewsSubscriber
  | [], _ => []
  | x :: rest, i => if x.id = i then rest else x :: mapDelete rest i

/-- `NewsPublisher.unsubscribe`: `this.subscribers.delete(subscriberId)`. -/
def NewsPublisher.unsubscribe (p : NewsPublisher) (i : String) : NewsPublisher :=
  { p with subscribers := mapDelete p.subscribers i }

/-- The notification loop of `publish` over the subscriber map: invoke
`onNews` of every subscriber whose interests match, logging invoked
callback tokens; a throwing callback aborts the loop (no try/catch in
the source).  No modelled effect mutates the map, so iterating the
entry list is the `Map.forEach` semantics. -/
def deliverNews (beh : Nat → CbEffect) (cat : String) :
    List NewsSubscriber → List Nat → List Nat × Bool
  | [], log => (log, false)
  | s :: rest, log =>
    if matchesInterest s cat then
      match beh s.onNews with
      | CbEffect.nop => deliverNews beh cat rest (log ++ [s.onNews])
      | CbEffect.throwErr => (log ++ [s.onNews], true)
    else deliverNews beh cat rest log

/-- Result of one `publish` call: the publisher afterwards, the
enriched article, the ordered `onNews` invocation log, and whether a
subscriber callback threw (the exception then propagated out of
`publish`). -/
structure PublishResult where
  pub : NewsPublisher
  article : NewsArticle
  log : List Nat
  aborted : Bool
deriving DecidableEq

/-- `NewsPublisher.publish`: build the article with
`id: ++this.articleIdCounter` and the current time, push it onto the
log, then notify matching subscribers.  The counter increment and the
push happen before the notification loop, so they survive a throwing
callback. -/
def NewsPublisher.publish (p : NewsPublisher) (beh : Nat → CbEffect)
    (title cat content : String) (now : Nat) : PublishResult :=
  let a : NewsArticle := ⟨p.articleIdCounter + 1, title, cat, content, now⟩
  let p' : NewsPublisher :=
    { p with articleIdCounter := p.articleIdCounter + 1, articles := p.articles ++ [a] }
  let r := deliverNews beh cat p'.subscribers []
  ⟨p', a, r.1, r.2⟩

/-- `NewsPublisher.getArticles`: `return [...this.articles]` — a fresh
snapshot array holding the log's elements in order (copying is
invisible in the pure model). -/
def NewsPublisher.getArticles (p : NewsPublisher) : List NewsArticle :=
  p.articles

/-- `NewsPublisher.getSubscriberCount`: `this.subscribers.size`. -/
def NewsPublisher.getSubscriberCount (p : NewsPublisher) : Nat :=
  p.subscribers.length

theorem deliverNews_count_notin (beh : Nat → CbEffect) (cat : String) (x : Nat) :
    ∀ (subs : List NewsSubscriber) (log : List Nat),
      x ∉ subs.map (fun s => s.onNews) →
      ((deliverNews beh cat subs log).1).count x = log.count x := by
  intro subs
  induction subs with
  | nil => intro log _; simp [deliverNews]
  | cons s rest ih =>
    intro log hx
    have hsx : s.onNews ≠ x := by
      intro h
      apply hx
      rw [← h]
      exact List.mem_map_of_mem _ (List.mem_cons_self s rest)
    have hxr : x ∉ rest.map (fun q => q.onNews) := by
      intro h
      apply hx
      simp only [List.map_cons]
      exact List.mem_cons_of_mem _ h
    by_cases hm : matchesInterest s cat
    · cases hb : beh s.onNews with
      | nop =>
        simp only [deliverNews, if_pos hm, hb]
        rw [ih (log ++ [s.onNews]) hxr, count_snoc_ne log hsx]
      | throwErr =>
        simp only [deliverNews, if_pos hm, hb]
        exact count_snoc_ne log hsx
    · simp only [deliverNews, if_neg hm]
      exact ih log hxr

theorem deliverNews_count (beh : Nat → CbEffect) (cat : String) :
    ∀ (subs : List NewsSubscriber) (log : List Nat) (sub : NewsSubscriber),
      sub ∈ subs → (subs.map (fun s => s.onNews)).Nodup →
      (∀ x ∈ subs, beh x.onNews = CbEffect.nop) →
      ((deliverNews beh cat subs log).1).count sub.onNews =
        log.count sub.onNews + (if matchesInterest sub cat then 1 else 0) := by
  intro subs
  induction subs with
  | nil => intro log sub hs; simp at hs
  | cons s rest ih =>
    intro log sub hs hnd hnop
    have hndr : (rest.map (fun q => q.onNews)).Nodup := by
      simp only [List.map_cons, List.nodup_cons] at hnd
      exact hnd.2
    have hsr : s.onNews ∉ rest.map (fun q => q.onNews) := by
      simp only [List.map_cons, List.nodup_cons] at hnd
      exact hnd.1
    have hnopr : ∀ x ∈ rest, beh x.onNews = CbEffect.nop :=
      fun x hx => hnop x (List.mem_cons_of_mem _ hx)
    have hbs : beh s.onNews = CbEffect.nop := hnop s (List.mem_cons_self _ _)
    rcases List.mem_cons.mp hs with hss | hsrm
    · subst hss
      by_cases hm : matchesInterest sub cat
      · simp only [deliverNews, if_pos hm, hbs]
        rw [deliverNews_count_notin beh cat sub.onNews rest (log ++ [sub.onNews]) hsr,
          count_snoc_self]
      · simp only [deliverNews, if_neg hm]
        rw [deliverNews_count_notin beh cat sub.onNews rest log hsr]
        omega
    · have hne : s.onNews ≠ sub.onNews := by
        intro h
        exact hsr (h ▸ List.mem_map_of_mem (fun q => q.onNews) hsrm)
      by_cases hm : matchesInterest s cat
      · simp only [deliverNews, if_pos hm, hbs]
        rw [ih (log ++ [s.onNews]) sub hsrm hndr hnopr, count_snoc_ne log hne]
      · simp only [deliverNews, if_neg hm]
        exact ih log sub hsrm hndr hnopr

theorem deliverNews_log_mem (beh : Nat → CbEffect) (cat : String) :
    ∀ (subs : List NewsSubscriber) (log : List Nat) (y : Nat),
      y ∈ (deliverNews beh cat subs log).1 →
      y ∈ log ∨ y ∈ subs.map (fun s => s.onNews) := by
  intro subs
  induction subs with
  | nil => intro log y hy; simp [deliverNews] at hy; exact Or.inl hy
  | cons s rest ih =>
    intro log y hy
    have hsplit : y ∈ log ++ [s.onNews] → y ∈ log ∨ y ∈ (s :: rest).map (fun q => q.onNews) := by
      intro h
      rcases List.mem_append.mp h with h1 | h2
      · exact Or.inl h1
      · right
        have hy2 : y = s.onNews := List.mem_singleton.mp h2
        simp [List.map_cons, hy2]
    by_cases hm : matchesInterest s cat
    · cases hb : beh s.onNews with
      | nop =>
        simp only [deliverNews, if_pos hm, hb] at hy
        rcases ih (log ++ [s.onNews]) y hy with h1 | h2
        · exact hsplit h1
        · right
          simp only [List.map_cons]
          exact List.mem_cons_of_mem _ h2
      | throwErr =>
        simp only [deliverNews, if_pos hm, hb] at hy
        exact hsplit hy
    · simp only [deliverNews, if_neg hm] at hy
      rcases ih log y hy with h1 | h2
      · exact Or.inl h1
      · right
        simp only [List.map_cons]
        exact List.mem_cons_of_mem _ h2

theorem deliverNews_throw_aborts (beh : Nat → CbEffect) (cat : String) :
    ∀ (subs : List NewsSubscriber) (log : List Nat),
      (∃ s ∈ subs, matchesInterest s cat = true ∧ beh s.onNews = CbEffect.throwErr) →
      (deliverNews beh cat subs log).2 = true := by
  intro subs
  induction subs with
  | nil => intro log h; simp at h
  | cons s rest ih =>
    intro log h
    obtain ⟨w, hw, hwm, hwt⟩ := h
    by_cases hm : matchesInterest s cat
    · cases hb : beh s.onNews with
      | nop =>
        simp only [deliverNews, if_pos hm, hb]
        apply ih
        rcases List.mem_cons.mp hw with hws | hwr
        · exact absurd (hws ▸ hwt) (by rw [hb]; simp)
        · exact ⟨w, hwr, hwm, hwt⟩
      | throwErr => simp [deliverNews, if_pos hm, hb]
    · simp only [deliverNews, if_neg hm]
      apply ih
      rcases List.mem_cons.mp hw with hws | hwr
      · exact absurd (hws ▸ hwm) hm
      · exact ⟨w, hwr, hwm, hwt⟩

/-- C6 (confirmed): a registered subscriber's `onNews` is invoked for a
published event exactly when its declared categories contain the
event's category or the wildcard `"all"` (and then exactly once), given
unique callback identities and benign callbacks. -/
theorem c6_publish_filters_by_category (p : NewsPublisher) (beh : Nat → CbEffect)
    (title cat content : String) (now : Nat) (sub : NewsSubscriber)
    (hmem : sub ∈ p.subscribers)
    (hnd : (p.subscribers.map (fun s => s.onNews)).Nodup)
    (hnop : ∀ x ∈ p.subscribers, beh x.onNews = CbEffect.nop) :
    (p.publish beh title cat content now).log.count sub.onNews
      = if matchesInterest sub cat then 1 else 0 := by
  have h := deliverNews_count beh cat p.subscribers [] sub hmem hnd hnop
  simpa using h

/-- Subscriber A of the spec's category-filter example: interested in
`["tech"]` only. -/
def subA : NewsSubscriber := ⟨"a", "A", ["tech"], 1⟩

/-- Subscriber B of the spec's category-filter example: wildcard
interest `["all"]`. -/
def subB : NewsSubscriber := ⟨"b", "B", ["all"], 2⟩

/-- Publisher with subscribers A and B registered. -/
def pubAB : NewsPublisher := ⟨[subA, subB], [], 0⟩

/-- Witness for C6: publishing a `"sports"` event to `pubAB` invokes B
(token 2) exactly once and does not invoke A (token 1). -/
theorem c6_witness :
    (pubAB.publish (fun _ => CbEffect.nop) "t" "sports" "c" 0).log.count 2 = 1
    ∧ (pubAB.publish (fun _ => CbEffect.nop) "t" "sports" "c" 0).log.count 1 = 0 := by
  have hB := c6_publish_filters_by_category pubAB (fun _ => CbEffect.nop)
    "t" "sports" "c" 0 subB (by decide) (by decide) (by decide)
  have hA := c6_publish_filters_by_category pubAB (fun _ => CbEffect.nop)
    "t" "sports" "c" 0 subA (by decide) (by decide) (by decide)
  constructor
  · have hm : matchesInterest subB "sports" = true := by decide
    simpa [subB, hm] using hB
  · have hm : matchesInterest subA "sports" = false := by decide
    simpa [subA, hm] using hA

/-- First subscriber of the C1 scenario: matches everything and its
callback (token 1) throws. -/
def subThrow1 : NewsSubscriber := ⟨"s1", "S1", ["all"], 1⟩

/-- Second subscriber of the C1 scenario: matches everything, callback
token 2, registered after the throwing one. -/
def subAfter2 : NewsSubscriber := ⟨"s2", "S2", ["all"], 2⟩

/-- Publisher with the throwing subscriber first and a second
subscriber after it. -/
def pubThrow : NewsPublisher := ⟨[subThrow1, subAfter2], [], 0⟩

/-- Behaviour in which callback token 1 throws and every other callback
is benign. -/
def behThrow1 : Nat → CbEffect :=
  fun n => if n = 1 then CbEffect.throwErr else CbEffect.nop

/-- C1 counterexample: with two registered subscribers, the first
subscriber's throwing callback DOES abort delivery to the remaining
subscriber (token 2 is never invoked and the exception propagates), so
the claim's "must not abort delivery to the remaining subscribers"
fails on the code at this input. -/
theorem c1_counterexample :
    pubThrow.getSubscriberCount = 2
    ∧ (pubThrow.publish behThrow1 "t" "x" "c" 0).aborted = true
    ∧ 2 ∉ (pubThrow.publish behThrow1 "t" "x" "c" 0).log := by
  decide

/-- C1 amended (corrected claim): in every delivery loop of the file —
`NewsPublisher.publish`, `EventEmitter.emit`, `ObservableStore.notify`
and the notification pass of `setState` — a callback that throws makes
the exception propagate out of the call and aborts delivery to the
subscribers not yet visited (there is no per-callback isolation), but
the producer's state is not corrupted: the article was already appended
with its fresh id and the id counter keeps its increment, `notify`
leaves the stored state untouched, and the Subject's state is committed
before `setState`'s notification begins, so a throwing observer cannot
roll it back.  Hypotheses: each pass contains a reached throwing
callback (for `emit`/`notify` no callback unsubscribes, so every entry
is reached or the pass aborts earlier). -/
theorem c1_throw_aborts_delivery_but_state_intact {T : Type} [DecidableEq T]
    (p : NewsPublisher) (beh : Nat → CbEffect) (title cat content : String) (now : Nat)
    (sub : NewsSubscriber) (hs : sub ∈ p.subscribers)
    (hm : matchesInterest sub cat = true) (hthrow : beh sub.onNews = CbEffect.throwErr)
    (em : EventEmitter) (e : String) (ebeh : Nat → CbAct) (cbs : List Nat)
    (hl : lookupTopic em.events e = some cbs)
    (heun : ∀ q ∈ cbs, (ebeh q).isUnsub = false)
    (hethrow : ∃ q ∈ cbs, ebeh q = CbAct.throwErr)
    (s : ObservableStore T) (obeh : Nat → CbAct)
    (houn : ∀ o ∈ s.observers, (obeh o).isUnsub = false)
    (hothrow : ∃ o ∈ s.observers, obeh o = CbAct.throwErr)
    (sbeh : Nat → CbEffect) (next : NextState T) (v : T)
    (hv : evalNext next s.state = Except.ok v) (hvne : v ≠ s.state)
    (hsthrow : ∃ o ∈ s.observers, sbeh o = CbEffect.throwErr) :
    (p.publish beh title cat content now).aborted = true
    ∧ (p.publish beh title cat content now).article.id = p.articleIdCounter + 1
    ∧ (p.publish beh title cat content now).pub.articles
        = p.articles ++ [(p.publish beh title cat content now).article]
    ∧ (p.publish beh title cat content now).pub.articleIdCounter = p.articleIdCounter + 1
    ∧ (em.emit e ebeh).aborted = true
    ∧ (s.notify obeh).aborted = true
    ∧ (s.notify obeh).store.state = s.state
    ∧ (s.setState sbeh next).threw = true
    ∧ (s.setState sbeh next).store.state = v := by
  have hres : s.setState sbeh next =
      if v = s.state then ⟨{ s with state := v }, [], false⟩
      else ⟨{ s with state := v }, (notifyRun sbeh v s.observers []).1,
        (notifyRun sbeh v s.observers []).2⟩ := by
    unfold ObservableStore.setState
    rw [hv]
  refine ⟨?_, rfl, rfl, rfl, ?_, ?_, rfl, ?_, ?_⟩
  · exact deliverNews_throw_aborts beh cat p.subscribers [] ⟨sub, hs, hm, hthrow⟩
  · rw [emit_eq_runCBs ebeh hl]
    obtain ⟨q, hq, hqt⟩ := hethrow
    exact runCBs_throw_aborts ebeh cbs cbs [] heun ⟨q, hq, hq, hqt⟩
  · obtain ⟨o, ho, hot⟩ := hothrow
    exact runCBs_throw_aborts obeh s.observers s.observers [] houn ⟨o, ho, ho, hot⟩
  · rw [hres, if_neg hvne]
    exact notifyRun_throw_aborts sbeh v s.observers [] hsthrow
  · rw [hres, if_neg hvne]

/-- Witness for C1 amended at concrete inputs: the throwing publish
still records counter 1; an emit and a notify pass each containing a
throwing callback report the exception; and a store whose only observer
throws still commits the new state 1 while `setState` reports the
exception. -/
theorem c1_witness :
    (pubThrow.publish behThrow1 "t" "x" "c" 0).pub.articleIdCounter = 1
    ∧ ((EventEmitter.mk [("t", [1, 2])]).emit "t" behEmThrow).aborted = true
    ∧ ((ObservableStore.mk [9] (0 : Nat)).notify (fun _ => CbAct.throwErr)).aborted = true
    ∧ ((ObservableStore.mk [9] (0 : Nat)).setState (fun _ => CbEffect.throwErr)
        (NextState.value 1)).threw = true
    ∧ ((ObservableStore.mk [9] (0 : Nat)).setState (fun _ => CbEffect.throwErr)
        (NextState.value 1)).store.state = 1 := by
  have h := c1_throw_aborts_delivery_but_state_intact pubThrow behThrow1 "t" "x" "c" 0
    subThrow1 (by decide) (by decide) (by decide)
    (EventEmitter.mk [("t", [1, 2])]) "t" behEmThrow [1, 2]
    (by decide) (by decide) (by decide)
    (ObservableStore.mk [9] (0 : Nat)) (fun _ => CbAct.throwErr)
    (by decide) (by decide)
    (fun _ => CbEffect.throwErr) (NextState.value 1) 1 rfl (by decide) (by decide)
  exact ⟨h.2.2.2.1, h.2.2.2.2.1, h.2.2.2.2.2.1, h.2.2.2.2.2.2.2.1, h.2.2.2.2.2.2.2.2⟩

/-- One lifetime step of a `NewsPublisher`: a subscribe, an unsubscribe
or a publish (the latter carrying the callback behaviours of that pass,
which may include throwing). -/
inductive NPCmd where
  | sub : NewsSubscriber → NPCmd
  | unsub : String → NPCmd
  | pub : (Nat → CbEffect) → String → String → String → Nat → NPCmd

/-- Run a lifetime of operations against a publisher. -/
def runCmds : NewsPublisher → List NPCmd → NewsPublisher
  | p, [] => p
  | p, NPCmd.sub s :: rest => runCmds (p.subscribe s) rest
  | p, NPCmd.unsub i :: rest => runCmds (p.unsubscribe i) rest
  | p, NPCmd.pub beh t c ct now :: rest => runCmds (p.publish beh t c ct now).pub rest

/-- A newly constructed `NewsPublisher`: no subscribers, empty log,
`articleIdCounter = 0`. -/
def freshNewsPublisher : NewsPublisher := ⟨[], [], 0⟩

/-- The id invariant: the counter equals the number of published
articles and the log's ids are exactly `1, 2, ..., n` in order. -/
def pubInv (p : NewsPublisher) : Prop :=
  p.articleIdCounter = p.articles.length
  ∧ p.articles.map (fun a => a.id) = List.range' 1 p.articles.length

theorem pubInv_publish (p : NewsPublisher) (beh : Nat → CbEffect)
    (t c ct : String) (now : Nat) (h : pubInv p) :
    pubInv (p.publish beh t c ct now).pub := by
  obtain ⟨h1, h2⟩ := h
  have harts : (p.publish beh t c ct now).pub.articles
      = p.articles ++ [(p.publish beh t c ct now).article] := rfl
  have hid : (p.publish beh t c ct now).article.id = p.articleIdCounter + 1 := rfl
  have hcnt : (p.publish beh t c ct now).pub.articleIdCounter
      = p.articleIdCounter + 1 := rfl
  constructor
  · rw [hcnt, harts, List.length_append, h1]
    simp
  · rw [harts, List.map_append, h2]
    simp [hid, h1, List.range'_1_concat, Nat.add_comm]

theorem pubInv_subscribe (p : NewsPublisher) (s : NewsSubscriber) (h : pubInv p) :
    pubInv (p.subscribe s) :=
  h

theorem pubInv_unsubscribe (p : NewsPublisher) (i : String) (h : pubInv p) :
    pubInv (p.unsubscribe i) :=
  h

theorem runCmds_pubInv :
    ∀ (cmds : List NPCmd) (p : NewsPublisher), pubInv p → pubInv (runCmds p cmds) := by
  intro cmds
  induction cmds with
  | nil => intro p h; exact h
  | cons c rest ih =>
    intro p h
    cases c with
    | sub s => exact ih _ (pubInv_subscribe p s h)
    | unsub i => exact ih _ (pubInv_unsubscribe p i h)
    | pub beh t cc ct now => exact ih _ (pubInv_publish p beh t cc ct now h)

/-- C5 (confirmed): over any lifetime of subscribes, unsubscribes and
publishes (whose callbacks may throw) starting from a fresh
`NewsPublisher`, the ids in `getArticles` are exactly `1, 2, ..., n` in
publication order (consecutive from 1, strictly increasing, never
reused — aborted passes still consume their id), and the counter equals
the number of published articles. -/
theorem c5_ids_consecutive_from_one (cmds : List NPCmd) :
    (runCmds freshNewsPublisher cmds).getArticles.map (fun a => a.id)
      = List.range' 1 (runCmds freshNewsPublisher cmds).getArticles.length
    ∧ (runCmds freshNewsPublisher cmds).articleIdCounter
      = (runCmds freshNewsPublisher cmds).getArticles.length := by
  have h := runCmds_pubInv cmds freshNewsPublisher ⟨rfl, rfl⟩
  exact ⟨h.2, h.1⟩

theorem mapSet_length_of_mem :
    ∀ (subs : List NewsSubscriber) (s : NewsSubscriber),
      (∃ old ∈ subs, old.id = s.id) → (mapSet subs s).length = subs.length := by
  intro subs
  induction subs with
  | nil =>
    intro s h
    obtain ⟨o, ho, _⟩ := h
    simp at ho
  | cons x rest ih =>
    intro s h
    by_cases hx : x.id = s.id
    · simp [mapSet, hx]
    · obtain ⟨o, ho, hoid⟩ := h
      rcases List.mem_cons.mp ho with h1 | h2
      · exact absurd (h1 ▸ hoid) hx
      · simp only [mapSet, if_neg hx, List.length_cons]
        rw [ih s ⟨o, h2, hoid⟩]

theorem mapSet_self_mem :
    ∀ (subs : List NewsSubscriber) (nw : NewsSubscriber), nw ∈ mapSet subs nw := by
  intro subs
  induction subs with
  | nil => intro nw; simp [mapSet]
  | cons x rest ih =>
    intro nw
    by_cases hx : x.id = nw.id
    · simp [mapSet, hx]
    · simp only [mapSet, if_neg hx]
      exact List.mem_cons_of_mem _ (ih nw)

theorem mapSet_tokens_mem :
    ∀ (subs : List NewsSubscriber) (nw : NewsSubscriber) (y : Nat),
      y ∈ (mapSet subs nw).map (fun q => q.onNews) →
      y ∈ subs.map (fun q => q.onNews) ∨ y = nw.onNews := by
  intro subs
  induction subs with
  | nil =>
    intro nw y hy
    simp [mapSet] at hy
    exact Or.inr hy
  | cons x rest ih =>
    intro nw y hy
    by_cases hx : x.id = nw.id
    · simp only [mapSet, if_pos hx, List.map_cons, List.mem_cons] at hy
      rcases hy with h1 | h2
      · exact Or.inr h1
      · left
        simp only [List.map_cons]
        exact List.mem_cons_of_mem _ h2
    · simp only [mapSet, if_neg hx, List.map_cons, List.mem_cons] at hy
      rcases hy with h1 | h2
      · left
        simp [List.map_cons, h1]
      · rcases ih nw y h2 with ha | hb
        · left
          simp only [List.map_cons]
          exact List.mem_cons_of_mem _ ha
        · exact Or.inr hb

theorem mapSet_token_gone :
    ∀ (subs : List NewsSubscriber) (nw old : NewsSubscriber),
      old ∈ subs → old.id = nw.id →
      (subs.map (fun q => q.id)).Nodup →
      (subs.map (fun q => q.onNews)).Nodup →
      nw.onNews ∉ subs.map (fun q => q.onNews) →
      old.onNews ∉ (mapSet subs nw).map (fun q => q.onNews) := by
  intro subs
  induction subs with
  | nil => intro nw old ho; simp at ho
  | cons x rest ih =>
    intro nw old ho hid hnid hntok hfresh
    have hxidr : x.id ∉ rest.map (fun q => q.id) := by
      simp only [List.map_cons, List.nodup_cons] at hnid
      exact hnid.1
    have hnidr : (rest.map (fun q => q.id)).Nodup := by
      simp only [List.map_cons, List.nodup_cons] at hnid
      exact hnid.2
    have hxtokr : x.onNews ∉ rest.map (fun q => q.onNews) := by
      simp only [List.map_cons, List.nodup_cons] at hntok
      exact hntok.1
    have hntokr : (rest.map (fun q => q.onNews)).Nodup := by
      simp only [List.map_cons, List.nodup_cons] at hntok
      exact hntok.2
    have hfx : nw.onNews ≠ x.onNews := by
      intro h
      apply hfresh
      simp [List.map_cons, h]
    have hfr : nw.onNews ∉ rest.map (fun q => q.onNews) := by
      intro h
      apply hfresh
      simp only [List.map_cons]
      exact List.mem_cons_of_mem _ h
    by_cases hx : x.id = nw.id
    · have hox : old = x := by
        rcases List.mem_cons.mp ho with h1 | h2
        · exact h1
        · exfalso
          apply hxidr
          rw [hx, ← hid]
          exact List.mem_map_of_mem _ h2
      subst hox
      simp only [mapSet, if_pos hx, List.map_cons, List.mem_cons]
      rintro (h1 | h2)
      · exact hfx h1.symm
      · exact hxtokr h2
    · have hor : old ∈ rest := by
        rcases List.mem_cons.mp ho with h1 | h2
        · exact absurd (h1 ▸ hid) hx
        · exact h2
      have hone : old.onNews ≠ x.onNews := by
        intro h
        apply hxtokr
        rw [← h]
        exact List.mem_map_of_mem _ hor
      simp only [mapSet, if_neg hx, List.map_cons, List.mem_cons]
      rintro (h1 | h2)
      · exact hone h1
      · exact ih nw old hor hid hnidr hntokr hfr h2

theorem mapSet_tokens_nodup :
    ∀ (subs : List NewsSubscriber) (nw : NewsSubscriber),
      (subs.map (fun q => q.onNews)).Nodup →
      nw.onNews ∉ subs.map (fun q => q.onNews) →
      ((mapSet subs nw).map (fun q => q.onNews)).Nodup := by
  intro subs
  induction subs with
  | nil => intro nw _ _; simp [mapSet]
  | cons x rest ih =>
    intro nw hntok hfresh
    have hxtokr : x.onNews ∉ rest.map (fun q => q.onNews) := by
      simp only [List.map_cons, List.nodup_cons] at hntok
      exact hntok.1
    have hntokr : (rest.map (fun q => q.onNews)).Nodup := by
      simp only [List.map_cons, List.nodup_cons] at hntok
      exact hntok.2
    have hfx : nw.onNews ≠ x.onNews := by
      intro h
      apply hfresh
      simp [List.map_cons, h]
    have hfr : nw.onNews ∉ rest.map (fun q => q.onNews) := by
      intro h
      apply hfresh
      simp only [List.map_cons]
      exact List.mem_cons_of_mem _ h
    by_cases hx : x.id = nw.id
    · simp only [mapSet, if_pos hx, List.map_cons, List.nodup_cons]
      exact ⟨hfr, hntokr⟩
    · simp only [mapSet, if_neg hx, List.map_cons, List.nodup_cons]
      constructor
      · intro h
        rcases mapSet_tokens_mem rest nw x.onNews h with h1 | h2
        · exact hxtokr h1
        · exact hfx h2.symm
      · exact ih nw hntokr hfr

/-- C10 (confirmed): `subscribe` with a subscriber whose id is already
registered replaces the existing registration (JS `Map.set`):
`getSubscriberCount` is unchanged, and a subsequent publish never
invokes the replaced subscriber's callback while invoking the new
subscriber's callback exactly when its categories match (and then
exactly once).  Hypotheses: unique ids and callback identities, the new
callback is a fresh identity, callbacks of the pass are benign. -/
theorem c10_subscribe_same_id_replaces (p : NewsPublisher) (nw old : NewsSubscriber)
    (hold : old ∈ p.subscribers) (hid : old.id = nw.id)
    (hnid : (p.subscribers.map (fun q => q.id)).Nodup)
    (hntok : (p.subscribers.map (fun q => q.onNews)).Nodup)
    (hfresh : nw.onNews ∉ p.subscribers.map (fun q => q.onNews))
    (beh : Nat → CbEffect) (t c ct : String) (now : Nat)
    (hnop : ∀ x ∈ (p.subscribe nw).subscribers, beh x.onNews = CbEffect.nop) :
    (p.subscribe nw).getSubscriberCount = p.getSubscriberCount
    ∧ old.onNews ∉ ((p.subscribe nw).publish beh t c ct now).log
    ∧ ((p.subscribe nw).publish beh t c ct now).log.count nw.onNews
        = if matchesInterest nw c then 1 else 0 := by
  refine ⟨mapSet_length_of_mem p.subscribers nw ⟨old, hold, hid⟩, ?_, ?_⟩
  · intro hin
    have hlog := deliverNews_log_mem beh c (mapSet p.subscribers nw) [] old.onNews hin
    rcases hlog with h1 | h2
    · simp at h1
    · exact mapSet_token_gone p.subscribers nw old hold hid hnid hntok hfresh h2
  · have h := deliverNews_count beh c (mapSet p.subscribers nw) [] nw
      (mapSet_self_mem p.subscribers nw)
      (mapSet_tokens_nodup p.subscribers nw hntok hfresh) hnop
    simpa using h

/-- The originally registered subscriber of the C10 witness. -/
def subOld : NewsSubscriber := ⟨"a", "Old", ["tech"], 1⟩

/-- The replacing subscriber of the C10 witness: same id `"a"`, fresh
callback token 2. -/
def subNew : NewsSubscriber := ⟨"a", "New", ["tech"], 2⟩

/-- Publisher with only the original subscriber registered. -/
def pubOld : NewsPublisher := ⟨[subOld], [], 0⟩

/-- Witness for C10 at concrete inputs: re-subscribing id `"a"` keeps
the count at 1; a `"tech"` publish never invokes the old callback and
invokes the new one exactly once. -/
theorem c10_witness :
    (pubOld.subscribe subNew).getSubscriberCount = pubOld.getSubscriberCount
    ∧ subOld.onNews ∉ ((pubOld.subscribe subNew).publish (fun _ => CbEffect.nop)
        "t" "tech" "c" 0).log
    ∧ ((pubOld.subscribe subNew).publish (fun _ => CbEffect.nop)
        "t" "tech" "c" 0).log.count subNew.onNews = 1 := by
  have h := c10_subscribe_same_id_replaces pubOld subNew subOld (by decide) (by decide)
    (by decide) (by decide) (by decide) (fun _ => CbEffect.nop) "t" "tech" "c" 0
    (by decide)
  refine ⟨h.1, h.2.1, ?_⟩
  have hm : matchesInterest subNew "tech" = true := by decide
  rw [h.2.2, if_pos hm]
